import Mathlib

/-!
Verification of the chibivue reactivity core (`Dep` / `DepTarget`) and the
component-instance tracking slot (`component.ts`).

The `Dep` class is embedded directly from the source: a subscriber array with
tombstones (`null` slots), `addSub` pushing unconditionally, `depend`
delegating to the active target, and `notify` filtering a snapshot before
dispatch.  Subscriber targets are identified by their integer `id`.
-/

namespace ChibiVue

/-- A subscriber target is identified by its `id : number`. -/
abbrev SubId := Nat

/-- Source `Dep.subs : Array<DepTarget | null>` — subscriber slots with tombstones. -/
abbrev Subs := List (Option SubId)

/-- Source `Dep.addSub(sub)` performs `this.subs.push(sub)` — unconditional append. -/
def addSub (subs : Subs) (t : SubId) : Subs :=
  subs ++ [some t]

/-- The `forEach` dispatch loop of `notify`: visit each subscriber of the
snapshot in order, invoking its `update()`.  An `update()` is modelled as an
arbitrary transformation `upd` of the cell's subscriber array (the only state
a subscriber can observe or mutate here).  Returns the trace of invoked
subscribers together with the final subscriber array. -/
def dispatch (upd : SubId → Subs → Subs) : List SubId → Subs → List SubId × Subs
  | [], st => ([], st)
  | s :: rest, st =>
      let st1 := upd s st
      let r := dispatch upd rest st1
      (s :: r.1, r.2)

/-- Source `Dep.notify()`:
`const subs = this.subs.filter(Boolean); subs.forEach(sub => sub.update())`.
The snapshot is taken (tombstones filtered out) before any `update()` runs. -/
def notify (upd : SubId → Subs → Subs) (subs : Subs) : List SubId × Subs :=
  dispatch upd (subs.filterMap id) subs

lemma dispatch_fst (upd : SubId → Subs → Subs) (l : List SubId) (st : Subs) :
    (dispatch upd l st).1 = l := by
  induction l generalizing st with
  | nil => rfl
  | cons s rest ih => simp [dispatch, ih]

lemma dispatch_snd (upd : SubId → Subs → Subs) (l : List SubId) (st : Subs) :
    (dispatch upd l st).2 = l.foldl (fun acc s => upd s acc) st := by
  induction l generalizing st with
  | nil => rfl
  | cons s rest ih => simp [dispatch, ih, List.foldl_cons]

lemma notify_fst (upd : SubId → Subs → Subs) (subs : Subs) :
    (notify upd subs).1 = subs.filterMap id := by
  simp [notify, dispatch_fst]

/-- Claim C3: on a cell whose subscriber array mixes live entries and
tombstones, `notify()` invokes `update()` on exactly the non-tombstoned
entries, in the order of the underlying array (insertion order), skipping
tombstones and performing no reordering; when a live subscriber occurs only
once among the slots it is invoked exactly once. -/
theorem notify_visits_live_in_order (upd : SubId → Subs → Subs) (subs : Subs)
    (hnodup : (subs.filterMap id).Nodup) :
    (notify upd subs).1 = subs.filterMap id ∧
    ∀ t : SubId, some t ∈ subs → List.count t (notify upd subs).1 = 1 := by
  refine ⟨notify_fst upd subs, fun t ht => ?_⟩
  rw [notify_fst]
  have hmem : t ∈ subs.filterMap id := by
    simp only [List.mem_filterMap, id]
    exact ⟨some t, ht, rfl⟩
  exact List.count_eq_one_of_mem hnodup hmem

/-- Witness for C3 at a concrete subscriber array with a tombstone. -/
theorem notify_visits_live_in_order_witness :
    (notify (fun _ st => st) [some 5, none, some 9]).1 = [5, 9] ∧
    List.count 5 (notify (fun _ st => st) [some 5, none, some 9]).1 = 1 := by
  have h := notify_visits_live_in_order (fun _ st => st) [some 5, none, some 9]
      (by decide)
  exact ⟨h.1.trans (by decide), h.2 5 (by decide)⟩

/-- Claim C4: the set of subscribers visited by one `notify()` call is fixed
by the snapshot taken before any `update()` runs — the trace is independent
of what the updates do to the subscriber array, a subscriber absent from the
pre-dispatch snapshot is never visited even if an update adds it, and a live
subscriber present at snapshot time is visited even if an update tombstones
it mid-dispatch. -/
theorem notify_snapshot_before_dispatch (upd upd2 : SubId → Subs → Subs)
    (subs : Subs) :
    (notify upd subs).1 = (notify upd2 subs).1 ∧
    (∀ t : SubId, t ∉ subs.filterMap id → t ∉ (notify upd subs).1) ∧
    (∀ t : SubId, some t ∈ subs → t ∈ (notify upd subs).1) := by
  refine ⟨(notify_fst upd subs).trans (notify_fst upd2 subs).symm,
    fun t ht => ?_, fun t ht => ?_⟩
  · rw [notify_fst]; exact ht
  · rw [notify_fst]
    simp only [List.mem_filterMap, id]
    exact ⟨some t, ht, rfl⟩

/-- Witness for C4: an update that appends a new subscriber 7 and tombstones
subscriber 9 still yields the pre-dispatch snapshot as trace. -/
theorem notify_snapshot_before_dispatch_witness :
    (notify (fun _ st => (st.map fun s => if s = some 9 then none else s)
        ++ [some 7]) [some 5, some 9]).1 = [5, 9] := by
  have h := notify_snapshot_before_dispatch
      (fun _ st => (st.map fun s => if s = some 9 then none else s) ++ [some 7])
      (fun _ st => st) [some 5, some 9]
  refine h.1.trans ?_
  decide

/-- Claim C9: `notify()` itself never mutates the cell — the final subscriber
array is exactly the fold of the subscribers' own `update()` transformations
over the initial array, and when every `update()` leaves the array alone the
array is unchanged (no tombstone removal, no appends, no reordering by
`notify` itself). -/
theorem notify_no_self_mutation (upd : SubId → Subs → Subs) (subs : Subs) :
    (notify upd subs).2 = (subs.filterMap id).foldl (fun acc s => upd s acc) subs ∧
    ((∀ s st, upd s st = st) → (notify upd subs).2 = subs) := by
  constructor
  · simp [notify, dispatch_snd]
  · intro hid
    simp [notify, dispatch_snd, hid]

/-- Witness for C9 with identity updates on a concrete array. -/
theorem notify_no_self_mutation_witness :
    (notify (fun _ st => st) [some 5, none, some 9]).2 = [some 5, none, some 9] :=
  (notify_no_self_mutation (fun _ st => st) [some 5, none, some 9]).2
    (fun _ _ => rfl)

/-- Claim C6: `addSub(target)` appends unconditionally with no uniqueness
check — calling it twice in succession with the same target leaves the target
present twice in the list. -/
theorem addSub_appends_unconditionally (subs : Subs) (t : SubId) :
    addSub subs t = subs ++ [some t] ∧
    List.count (some t) (addSub (addSub subs t) t)
      = List.count (some t) subs + 2 := by
  refine ⟨rfl, ?_⟩
  simp [addSub, List.count_append]

/-! Bidirectional linking between cells and an effect.

A dependency cell (`Dep`) carries its `id` and subscriber slots.  The system
state for a single running effect records the effect's own link set
(`deps`, the ids of the cells it is linked to) and the world of cells. -/

/-- A dependency cell: `id` plus the subscriber slot array. -/
structure Cell where
  id : Nat
  subs : Subs
deriving DecidableEq

/-- State of a single effect and the cells it can read: the effect's link
set (cell ids, its own-side bookkeeping) and the cells themselves. -/
structure EState where
  deps : List Nat
  cells : List Cell
deriving DecidableEq

/-- Modelled from the spec: `ReactiveEffect.addDep(cell)` is not under `src/`
(only the `DepTarget` interface is); per §4.2, if the cell is not already in
the effect's link set, add it to both the link set and the cell's subscriber
list via `addSub`; otherwise no-op. -/
def addDep (eid : SubId) (cid : Nat) (st : EState) : EState :=
  if cid ∈ st.deps then st
  else
    { deps := st.deps ++ [cid],
      cells := st.cells.map fun c =>
        if c.id = cid then { c with subs := addSub c.subs eid } else c }

/-- Source `Dep.depend()` with an abstract target behaviour `f` standing for the
active target's `addDep`: `if (Dep.target) { Dep.target.addDep(this) }`. -/
def dependWith (f : SubId → Nat → EState → EState) (target : Option SubId)
    (cid : Nat) (st : EState) : EState :=
  match target with
  | none => st
  | some e => f e cid st

/-- Source `Dep.depend()` with the spec-modelled effect as target behaviour. -/
def depend (target : Option SubId) (cid : Nat) (st : EState) : EState :=
  dependWith addDep target cid st

/-- Claim C5: with no active target, `depend()` is a no-op leaving all state
unchanged; with an active target, its only action is a single invocation of
that target's `addDep` on the cell — whatever `addDep` does is the entire
effect of `depend`, the cell never touches its own subscriber list. -/
theorem depend_delegates_to_target (f : SubId → Nat → EState → EState)
    (cid : Nat) (st : EState) :
    dependWith f none cid st = st ∧
    (∀ e : SubId, dependWith f (some e) cid st = f e cid st) ∧
    (∀ t : Option SubId, depend t cid st = dependWith addDep t cid st) :=
  ⟨rfl, fun _ => rfl, fun _ => rfl⟩

/-- One tracked read inside a run: the cell's `depend()` with the effect as
the active target. -/
def readCell (eid : SubId) (st : EState) (cid : Nat) : EState :=
  depend (some eid) cid st

/-- A run's read sequence: every read calls `depend()` on the cell read. -/
def runReads (eid : SubId) (reads : List Nat) (st : EState) : EState :=
  reads.foldl (readCell eid) st

/-- The linking invariant for effect `eid`: each cell holds `eid` exactly
once when the cell is in the effect's link set and not at all otherwise. -/
def Inv (eid : SubId) (st : EState) : Prop :=
  ∀ c ∈ st.cells,
    List.count (some eid) c.subs = if c.id ∈ st.deps then 1 else 0

lemma inv_addDep (eid : SubId) (cid : Nat) (st : EState) (h : Inv eid st) :
    Inv eid (addDep eid cid st) := by
  unfold addDep
  split
  · exact h
  · rename_i hnot
    intro c hc
    simp only [List.mem_map] at hc
    obtain ⟨c0, hc0, rfl⟩ := hc
    by_cases hid : c0.id = cid
    · simp only [hid, if_pos rfl]
      have h0 := h c0 hc0
      rw [hid] at h0
      rw [if_neg hnot] at h0
      simp [addSub, List.count_append, h0, hid]
    · simp only [if_neg hid]
      have h0 := h c0 hc0
      have : c0.id ∈ st.deps ++ [cid] ↔ c0.id ∈ st.deps := by
        simp [List.mem_append, hid]
      simp only [EState.deps] at *
      rw [h0]
      by_cases hmem : c0.id ∈ st.deps
      · rw [if_pos hmem, if_pos (this.mpr hmem)]
      · rw [if_neg hmem, if_neg (fun hx => hmem (this.mp hx))]

lemma inv_runReads (eid : SubId) (reads : List Nat) (st : EState)
    (h : Inv eid st) : Inv eid (runReads eid reads st) := by
  induction reads generalizing st with
  | nil => exact h
  | cons r rest ih =>
      exact ih (readCell eid st r) (inv_addDep eid r st h)

lemma mem_addDep_deps (eid : SubId) (cid x : Nat) (st : EState) :
    x ∈ (addDep eid cid st).deps ↔ x ∈ st.deps ∨ x = cid := by
  unfold addDep
  split
  · rename_i hmem
    constructor
    · exact fun h => Or.inl h
    · rintro (h | rfl)
      · exact h
      · exact hmem
  · simp [List.mem_append]

lemma mem_runReads_deps (eid : SubId) (reads : List Nat) (x : Nat)
    (st : EState) :
    x ∈ (runReads eid reads st).deps ↔ x ∈ st.deps ∨ x ∈ reads := by
  induction reads generalizing st with
  | nil => simp [runReads]
  | cons r rest ih =>
      show x ∈ (runReads eid rest (readCell eid st r)).deps ↔ _
      rw [ih]
      unfold readCell depend dependWith
      rw [mem_addDep_deps]
      simp [List.mem_cons]
      tauto

/-- Claim C2 invariant consequence: under the linking invariant, any sequence
of `depend()` calls within a single run leaves every cell with at most one
entry for the active effect — repeated `depend()` on the same cell never
creates duplicates. -/
theorem depend_idempotent_linking (eid : SubId) (reads : List Nat)
    (st : EState) (h : Inv eid st) :
    ∀ c ∈ (runReads eid reads st).cells, List.count (some eid) c.subs ≤ 1 := by
  intro c hc
  have := inv_runReads eid reads st h c hc
  rw [this]
  split <;> omega

/-- Witness for C2: three repeated reads of the same fresh cell leave one
subscription entry. -/
theorem depend_idempotent_linking_witness :
    Inv 7 ⟨[], [⟨0, []⟩]⟩ ∧
    ∀ c ∈ (runReads 7 [0, 0, 0] ⟨[], [⟨0, []⟩]⟩).cells,
      List.count (some 7) c.subs ≤ 1 := by
  have hinv : Inv 7 ⟨[], [⟨0, []⟩]⟩ := by
    intro c hc
    simp only [List.mem_singleton] at hc
    subst hc
    decide
  exact ⟨hinv, depend_idempotent_linking 7 [0, 0, 0] ⟨[], [⟨0, []⟩]⟩ hinv⟩

lemma mem_subs_of_inv (eid : SubId) (st : EState) (h : Inv eid st)
    (c : Cell) (hc : c ∈ st.cells) :
    some eid ∈ c.subs ↔ c.id ∈ st.deps := by
  have hcount := h c hc
  constructor
  · intro hm
    by_contra hnd
    rw [if_neg hnd] at hcount
    exact (List.count_eq_zero.mp hcount) hm
  · intro hd
    rw [if_pos hd] at hcount
    by_contra hm
    have h0 : List.count (some eid) c.subs = 0 := List.count_eq_zero.mpr hm
    omega

/-- Modelled from the spec: the cleanup phase of `ReactiveEffect.run()` is
not under `src/`; per §4.2, for every cell currently linked to this effect,
remove the effect from that cell's subscriber list (tombstoning the slot, per
§5), then clear the effect's own link set. -/
def cleanup (eid : SubId) (st : EState) : EState :=
  { deps := [],
    cells := st.cells.map fun c =>
      if c.id ∈ st.deps then
        { c with subs := c.subs.map fun s => if s = some eid then none else s }
      else c }

lemma inv_cleanup (eid : SubId) (st : EState) (h : Inv eid st) :
    Inv eid (cleanup eid st) := by
  intro c hc
  simp only [cleanup, List.mem_map] at hc
  obtain ⟨c0, hc0, rfl⟩ := hc
  have hnil : ∀ x : Nat, x ∉ (cleanup eid st).deps := by
    intro x hx
    simp [cleanup] at hx
  by_cases hd : c0.id ∈ st.deps
  · simp only [if_pos hd]
    rw [if_neg (hnil _)]
    apply List.count_eq_zero.mpr
    intro hmem
    simp only [List.mem_map] at hmem
    obtain ⟨s, _, hs⟩ := hmem
    by_cases hse : s = some eid
    · rw [if_pos hse] at hs
      exact Option.noConfusion hs
    · rw [if_neg hse] at hs
      exact hse hs
  · simp only [if_neg hd]
    rw [if_neg (hnil _)]
    have h0 := h c0 hc0
    rw [if_neg hd] at h0
    exact h0

/-- Modelled from the spec: `ReactiveEffect.run()` (§4.2) — first clean up
all existing links, then execute the body as the active target; the body's
reads are represented by the sequence of cell ids it reads, each read
calling `depend()`. -/
def run (eid : SubId) (reads : List Nat) (st : EState) : EState :=
  runReads eid reads (cleanup eid st)

lemma inv_run (eid : SubId) (reads : List Nat) (st : EState)
    (h : Inv eid st) : Inv eid (run eid reads st) :=
  inv_runReads eid reads (cleanup eid st) (inv_cleanup eid st h)

lemma run_mem_subs (eid : SubId) (reads : List Nat) (st : EState)
    (h : Inv eid st) :
    ∀ c ∈ (run eid reads st).cells, (some eid ∈ c.subs ↔ c.id ∈ reads) := by
  intro c hc
  have h1 : Inv eid (run eid reads st) := inv_run eid reads st h
  rw [mem_subs_of_inv eid _ h1 c hc]
  show c.id ∈ (runReads eid reads (cleanup eid st)).deps ↔ _
  rw [mem_runReads_deps]
  simp [cleanup]

/-- Claim C1: after any run of an effect, the set of cells linked to it (on
both sides of the bidirectional edge) equals exactly the set of cells it read
during that run; in particular after a second run with a different read set,
a cell read only on the first run no longer holds the effect in its
subscriber list (no stale links, no missing links). -/
theorem run_links_equal_reads (eid : SubId) (reads1 reads2 : List Nat)
    (st : EState) (h : Inv eid st) :
    (∀ c ∈ (run eid reads1 st).cells, (some eid ∈ c.subs ↔ c.id ∈ reads1)) ∧
    (∀ cid : Nat, cid ∈ (run eid reads1 st).deps ↔ cid ∈ reads1) ∧
    (∀ c ∈ (run eid reads2 (run eid reads1 st)).cells,
        (some eid ∈ c.subs ↔ c.id ∈ reads2)) := by
  refine ⟨run_mem_subs eid reads1 st h, ?_, ?_⟩
  · intro cid
    show cid ∈ (runReads eid reads1 (cleanup eid st)).deps ↔ _
    rw [mem_runReads_deps]
    simp [cleanup]
  · exact run_mem_subs eid reads2 (run eid reads1 st)
      (inv_run eid reads1 st h)

/-- Witness for C1: effect 7 reads cells 0 and 1 on run 1, only cell 1 on
run 2; afterwards cell 0 no longer holds it, cell 1 does. -/
theorem run_links_equal_reads_witness :
    Inv 7 ⟨[], [⟨0, []⟩, ⟨1, []⟩]⟩ ∧
    ∀ c ∈ (run 7 [1] (run 7 [0, 1] ⟨[], [⟨0, []⟩, ⟨1, []⟩]⟩)).cells,
      (some 7 ∈ c.subs ↔ c.id ∈ [1]) := by
  have hinv : Inv 7 ⟨[], [⟨0, []⟩, ⟨1, []⟩]⟩ := by
    intro c hc
    simp only [List.mem_cons, List.not_mem_nil, or_false] at hc
    rcases hc with rfl | rfl <;> decide
  exact ⟨hinv,
    (run_links_equal_reads 7 [0, 1] [1] ⟨[], [⟨0, []⟩, ⟨1, []⟩]⟩ hinv).2.2⟩

/-! Cell identity: the module-level `uid` counter. -/

/-- Source `constructor()` runs `this.id = uid++`: build one cell id from the
process-wide counter, returning the assigned id and the advanced counter. -/
def mkDep (uid : Nat) : Nat × Nat :=
  (uid, uid + 1)

/-- The ids of `n` cells constructed in sequence starting from counter
value `uid`. -/
def mkDeps (uid : Nat) : Nat → List Nat
  | 0 => []
  | n + 1 => (mkDep uid).1 :: mkDeps (mkDep uid).2 n

lemma mkDeps_getD (u n i : Nat) (h : i < n) :
    (mkDeps u n).getD i 0 = u + i := by
  induction n generalizing u i with
  | zero => omega
  | succ n ih =>
      cases i with
      | zero => rfl
      | succ i =>
          have hrec := ih (u + 1) i (by omega)
          show (mkDeps (u + 1) n).getD i 0 = u + (i + 1)
          rw [hrec]
          omega

lemma mkDeps_mem_le (u n x : Nat) (h : x ∈ mkDeps u n) : u ≤ x := by
  induction n generalizing u with
  | zero => simp [mkDeps] at h
  | succ n ih =>
      simp only [mkDeps, mkDep, List.mem_cons] at h
      rcases h with rfl | h
      · exact Nat.le_refl x
      · have := ih (u + 1) h
        omega

lemma mkDeps_nodup (u n : Nat) : (mkDeps u n).Nodup := by
  induction n generalizing u with
  | zero => exact List.nodup_nil
  | succ n ih =>
      refine List.nodup_cons.mpr ⟨?_, ih (u + 1)⟩
      intro hmem
      have := mkDeps_mem_le (u + 1) n u hmem
      omega

/-- Claim C7: cell ids come from the process-wide counter at construction:
any two distinct cells in a construction sequence have distinct ids, and a
cell constructed later has a strictly greater id than one constructed
earlier. -/
theorem dep_ids_unique_monotone (u n i j : Nat) (hij : i < j) (hjn : j < n) :
    (mkDeps u n).getD i 0 < (mkDeps u n).getD j 0 ∧ (mkDeps u n).Nodup := by
  refine ⟨?_, mkDeps_nodup u n⟩
  rw [mkDeps_getD u n i (Nat.lt_trans hij hjn), mkDeps_getD u n j hjn]
  omega

/-- Witness for C7: the first and second of three cells built from counter 0. -/
theorem dep_ids_unique_monotone_witness :
    (mkDeps 0 3).getD 0 0 < (mkDeps 0 3).getD 1 0 ∧ (mkDeps 0 3).Nodup :=
  dep_ids_unique_monotone 0 3 0 1 (by decide) (by decide)

/-! The `component.ts` module-level `currentInstance` slot.

`setCurrentInstance` stores the instance and calls `instance.scope.on()`;
`unsetCurrentInstance` calls `currentInstance.scope.off()` only when an
instance is set, then clears the slot.  Instances are identified by an
integer; scope and setup calls are recorded in an observable trace. -/

/-- Observable calls made by the component layer. -/
inductive CEvent where
  | scopeOn (i : Nat)
  | scopeOff (i : Nat)
  | runSetup (i : Nat)
  | compileTemplate
  | applyOpts (i : Nat)
deriving DecidableEq

/-- The module state of `component.ts`: the `currentInstance` slot plus the
trace of scope/setup/options calls performed so far. -/
structure CompState where
  currentInstance : Option Nat
  trace : List CEvent
deriving DecidableEq

/-- Source `setCurrentInstance`: `currentInstance = instance; instance.scope.on()`. -/
def setCurrentInstance (i : Nat) (s : CompState) : CompState :=
  { currentInstance := some i, trace := s.trace ++ [CEvent.scopeOn i] }

/-- Source `unsetCurrentInstance`:
`currentInstance && currentInstance.scope.off(); currentInstance = null`. -/
def unsetCurrentInstance (s : CompState) : CompState :=
  match s.currentInstance with
  | some i => { currentInstance := none, trace := s.trace ++ [CEvent.scopeOff i] }
  | none => { currentInstance := none, trace := s.trace }

/-- Source `getCurrentInstance` is `() => currentInstance`. -/
def getCurrentInstance (s : CompState) : Option Nat :=
  s.currentInstance

/-- The call of the component's `setup` function. -/
def invokeSetup (i : Nat) (s : CompState) : CompState :=
  { s with trace := s.trace ++ [CEvent.runSetup i] }

/-- The call of `applyOptions(instance)`. -/
def invokeOptions (i : Nat) (s : CompState) : CompState :=
  { s with trace := s.trace ++ [CEvent.applyOpts i] }

/-- Source `setupComponent(instance)`: if the component has a `setup` function, run
it between `setCurrentInstance` and `unsetCurrentInstance`; then, if a
runtime compiler is registered, no `render` is present and a template exists,
compile it; finally apply the Options API, again between
`setCurrentInstance` and `unsetCurrentInstance`. -/
def setupComponent (i : Nat) (hasSetup hasCompiler hasRender hasTemplate : Bool)
    (s : CompState) : CompState :=
  let s1 := if hasSetup
    then unsetCurrentInstance (invokeSetup i (setCurrentInstance i s))
    else s
  let s2 := if hasCompiler && !hasRender && hasTemplate
    then { s1 with trace := s1.trace ++ [CEvent.compileTemplate] }
    else s1
  unsetCurrentInstance (invokeOptions i (setCurrentInstance i s2))

/-- Claim C8: for an instance with a `setup` function, `setupComponent`
straddles the whole setup phase with `scope.on()` (via `setCurrentInstance`)
before `setup` and `scope.off()` (via `unsetCurrentInstance`) after it, and
surrounds the Options-API application with a second separate on/off pair —
two explicit enter/leave pairs rather than one `scope.run` wrapper. -/
theorem setupComponent_scope_straddles_setup (i : Nat)
    (hasCompiler hasRender hasTemplate : Bool) (s : CompState) :
    (setupComponent i true hasCompiler hasRender hasTemplate s).trace =
      s.trace
        ++ [CEvent.scopeOn i, CEvent.runSetup i, CEvent.scopeOff i]
        ++ (if hasCompiler && !hasRender && hasTemplate
            then [CEvent.compileTemplate] else [])
        ++ [CEvent.scopeOn i, CEvent.applyOpts i, CEvent.scopeOff i] ∧
    (setupComponent i true hasCompiler hasRender hasTemplate s).currentInstance
      = none := by
  cases hasCompiler <;> cases hasRender <;> cases hasTemplate <;>
    simp [setupComponent, setCurrentInstance, unsetCurrentInstance,
      invokeSetup, invokeOptions]

/-- Claim C10: `getCurrentInstance` returns exactly the module slot;
`unsetCurrentInstance` with an empty slot is a pure no-op (the guarded
`scope.off()` is skipped), and with an instance set it calls that instance's
`scope.off()` exactly once before clearing the slot. -/
theorem unset_current_instance_guarded (s : CompState) :
    getCurrentInstance s = s.currentInstance ∧
    (s.currentInstance = none → unsetCurrentInstance s = s) ∧
    (∀ i : Nat, s.currentInstance = some i →
      (unsetCurrentInstance s).trace = s.trace ++ [CEvent.scopeOff i] ∧
      (unsetCurrentInstance s).currentInstance = none) := by
  obtain ⟨ci, tr⟩ := s
  refine ⟨rfl, ?_, ?_⟩
  · intro h
    cases h
    rfl
  · intro i h
    cases h
    exact ⟨rfl, rfl⟩

/-- Witness for C10 at a concrete state holding instance 3. -/
theorem unset_current_instance_guarded_witness :
    (unsetCurrentInstance ⟨some 3, []⟩).trace = [] ++ [CEvent.scopeOff 3] ∧
    (unsetCurrentInstance ⟨some 3, []⟩).currentInstance = none :=
  (unset_current_instance_guarded ⟨some 3, []⟩).2.2 3 rfl

end ChibiVue
